import Mathlib

/-!
# Round-robin load balancer: `load-balancer/main.go`

A shallow embedding of the scheduler (`LoadBalancer.GetServer`), the health
prober (`HealthCheck`), the request handler registered in `main` and the
registry construction (`initServers`), followed by the properties proved
about them.

Conventions of the embedding.

* The server slice `[]*Server` is a `List Server`; a `*Server` taken from the
  slice is represented by its position in the slice, so that two backends
  with equal fields are still told apart.
* The cursor `CurrentIndex` is the `int` of Go on a 64-bit target: an `Int`
  that `++` increments with two's-complement wraparound, and on which `%` is
  the truncated remainder.
* The mutexes are not modelled: every function below is one critical
  section executed without interference.
* Run-time panics of Go (division by zero, index out of range, nil
  dereference) are results of type `Except Panic _`.
-/

namespace LB

/-! ## Data model -/

/-- Run-time panics that the embedded code can raise. -/
inductive Panic where
  | divideByZero
  | indexOutOfRange
  | nilDereference
  deriving DecidableEq

/-- A parsed address `*url.URL`, represented by the text `URL.String()` renders. -/
abbrev URL := String

/-- The struct `Server` (its mutex left out).  `URL = none` is the nil pointer. -/
structure Server where
  URL : Option URL
  HealthStatus : Bool
  deriving DecidableEq

/-- The struct `LoadBalancer` (its mutex left out); `CurrentIndex` is a Go `int`. -/
structure LoadBalancer where
  CurrentIndex : Int
  deriving DecidableEq

/-- Ghost record of one iteration of the loop of `GetServer`: the value of
`CurrentIndex` the iteration read and the candidate index `idx` it computed. -/
structure Attempt where
  cursor : Int
  idx : Int
  deriving DecidableEq

/-- Outcome of one `GetServer` call: the returned `*Server` as a position of the
slice (`none` is `nil`), the load balancer afterwards, and the ghost record of
the iterations the loop ran, in order. -/
structure Selection where
  server : Option Nat
  lb : LoadBalancer
  attempts : List Attempt
  deriving DecidableEq

/-! ## `LoadBalancer.GetServer` -/

/-- Largest value of a Go `int` on a 64-bit target. -/
def MaxInt64 : Int := 2 ^ 63 - 1

/-- Two's-complement wraparound of an integer into the range of a 64-bit `int`. -/
def wrapInt64 (x : Int) : Int := (x + 2 ^ 63) % 2 ^ 64 - 2 ^ 63

/-- Integer remainder `a % b` of Go: truncated towards zero, panics on `b = 0`. -/
def goRem (a b : Int) : Except Panic Int :=
  if b = 0 then .error .divideByZero else .ok (Int.tmod a b)

/-- Slice indexing `servers[idx]` with an index known to be non-negative. -/
def goIndex (servers : List Server) (idx : Nat) : Except Panic Server :=
  match servers[idx]? with
  | some server => .ok server
  | none => .error .indexOutOfRange

/-- Slice indexing `servers[idx]` with a signed index: panics when `idx` is
negative or not below the length. -/
def goIndexInt (servers : List Server) (idx : Int) : Except Panic Server :=
  if idx < 0 then .error .indexOutOfRange else goIndex servers idx.toNat

/-- The loop `for i := 0; i < len(servers); i++` of `GetServer`; the first
argument is the number of iterations left, `len(servers) - i`. -/
def GetServerLoop (servers : List Server) :
    Nat → Int → List Attempt → Except Panic Selection
  | 0, cur, seen => .ok ⟨none, ⟨cur⟩, seen⟩
  | left + 1, cur, seen =>
    match goRem cur servers.length with
    | .error p => .error p
    | .ok idx =>
      match goIndexInt servers idx with
      | .error p => .error p
      | .ok server =>
        if server.HealthStatus then
          .ok ⟨some idx.toNat, ⟨wrapInt64 (cur + 1)⟩, seen ++ [⟨cur, idx⟩]⟩
        else
          GetServerLoop servers left (wrapInt64 (cur + 1)) (seen ++ [⟨cur, idx⟩])

/-- The method `LoadBalancer.GetServer`. -/
def GetServer (servers : List Server) (lb : LoadBalancer) : Except Panic Selection :=
  GetServerLoop servers servers.length lb.CurrentIndex []

/-- Sequential calls of `GetServer` on one load balancer: `calls` calls, the
returned servers in call order and the load balancer after the last call. -/
def GetServerCalls (servers : List Server) :
    Nat → LoadBalancer → Except Panic (List (Option Nat) × LoadBalancer)
  | 0, lb => .ok ([], lb)
  | calls + 1, lb =>
    match GetServer servers lb with
    | .error p => .error p
    | .ok sel =>
      match GetServerCalls servers calls sel.lb with
      | .error p => .error p
      | .ok (rest, lb2) => .ok (sel.server :: rest, lb2)

/-! ## Vocabulary of the statements -/

/-- Health flag of the backend at position `i` (`false` outside the slice). -/
def healthyAt (servers : List Server) (i : Nat) : Bool :=
  match servers[i]? with
  | some server => server.HealthStatus
  | none => false

/-- The candidate positions a cursor `c` walks through in `n` steps:
`c % N, (c+1) % N, …, (c+n-1) % N`. -/
def cyclicFrom (servers : List Server) (c n : Nat) : List Nat :=
  (List.range n).map (fun t => (c + t) % servers.length)

/-- The attempts of `n` iterations from cursor `c` that each advance the cursor
by one: cursor values `c, c+1, …, c+n-1`, each with its candidate index. -/
def attemptsFrom (servers : List Server) (c n : Nat) : List Attempt :=
  (List.range n).map (fun t => ⟨((c + t : Nat) : Int), (((c + t) % servers.length : Nat) : Int)⟩)

/-- Position `b` is the first healthy one met when walking the slice
cyclically from cursor `c` (offsets `0, 1, …`, fewer than `N` of them). -/
def firstHealthyFrom (servers : List Server) (c b : Nat) : Prop :=
  ∃ j, j < servers.length ∧ (b = (c + j) % servers.length ∧ healthyAt servers b = true ∧
    ∀ t, t < j → healthyAt servers ((c + t) % servers.length) = false)

instance (servers : List Server) (c b : Nat) : Decidable (firstHealthyFrom servers c b) := by
  unfold firstHealthyFrom
  infer_instance

/-- Position `b` is the next healthy one strictly after position `a` in cyclic
index order (`b = a` when `a` is the only healthy position). -/
def nextHealthy (servers : List Server) (a b : Nat) : Prop :=
  firstHealthyFrom servers (a + 1) b

instance (servers : List Server) (a b : Nat) : Decidable (nextHealthy servers a b) := by
  unfold nextHealthy
  infer_instance

/-- The smallest offset `j < N` whose candidate `(c + j) % N` is healthy, if any. -/
def firstHealthyOffset (servers : List Server) (c : Nat) : Option Nat :=
  (List.range servers.length).find? (fun j => healthyAt servers ((c + j) % servers.length))

/-- Number of candidates one call of `GetServer` at cursor `c` examines: up to
and including the first healthy one, all `N` when none is healthy. -/
def attemptCount (servers : List Server) (c : Nat) : Nat :=
  match firstHealthyOffset servers c with
  | some j => j + 1
  | none => servers.length

/-- Number of candidates `M` successive calls of `GetServer` examine in total,
the first of them at cursor `c`. -/
def consumed (servers : List Server) : Nat → Nat → Nat
  | _, 0 => 0
  | c, M + 1 => attemptCount servers c + consumed servers (c + attemptCount servers c) M

/-! ## `HealthCheck` -/

/-- The pair `(resp, err)` returned by `http.Head`: a transport error, or a
response with its status code. -/
inductive ProbeOutcome where
  | transportError
  | response (StatusCode : Int)
  deriving DecidableEq

/-- The constant `http.StatusOK`. -/
def StatusOK : Int := 200

/-- The constant `http.StatusServiceUnavailable`. -/
def StatusServiceUnavailable : Int := 503

/-- The method `(*url.URL).String` on a possibly nil pointer. -/
def URLString (u : Option URL) : Except Panic String :=
  match u with
  | none => .error .nilDereference
  | some text => .ok text

/-- The locked section of one iteration of the `HealthCheck` loop, given what
`http.Head` returned: `err != nil || resp.StatusCode != http.StatusOK`. -/
def HealthCheckUpdate (server : Server) (probe : ProbeOutcome) : Server :=
  match probe with
  | .transportError => { server with HealthStatus := false }
  | .response code =>
    if code ≠ StatusOK then { server with HealthStatus := false }
    else { server with HealthStatus := true }

/-- One iteration of the `HealthCheck` loop of one server; `head` is the
network at that tick, answering `http.Head` for an address. -/
def HealthCheck (head : String → ProbeOutcome) (server : Server) : Except Panic Server :=
  match URLString server.URL with
  | .error p => .error p
  | .ok address => .ok (HealthCheckUpdate server (head address))

/-- One iteration of the `HealthCheck` goroutine started for the backend at
position `i`, seen from the slice that shares the `*Server`. -/
def HealthCheckAt (head : String → ProbeOutcome) (servers : List Server) (i : Nat) :
    Except Panic (List Server) :=
  match servers[i]? with
  | none => .error .nilDereference
  | some server =>
    match HealthCheck head server with
    | .error p => .error p
    | .ok updated => .ok (servers.set i updated)

/-! ## The request handler of `main` -/

/-- An inbound request; the handler never inspects it. -/
structure Request where
  method : String
  path : String
  deriving DecidableEq

/-- What the handler did to the response writer: the status and body it wrote
itself (`none` when they pass through from the backend), the headers it set, and
the backends whose reverse proxy served the request. -/
structure Response where
  status : Option Int
  headers : List (String × String)
  body : Option String
  forwarded : List (Nat × Request)
  deriving DecidableEq

/-- Library function `http.Error`: plain-text error reply with the given code. -/
def httpError (error : String) (code : Int) : Response :=
  { status := some code
    headers := [("Content-Type", "text/plain; charset=utf-8"),
                ("X-Content-Type-Options", "nosniff")]
    body := some (error ++ "\n")
    forwarded := [] }

/-- The handler registered by `main` on the route `/`. -/
def handler (servers : List Server) (lb : LoadBalancer) (r : Request) :
    Except Panic (Response × LoadBalancer) :=
  match GetServer servers lb with
  | .error p => .error p
  | .ok sel =>
    match sel.server with
    | none => .ok (httpError "No healthy server found" StatusServiceUnavailable, sel.lb)
    | some i =>
      match goIndex servers i with
      | .error p => .error p
      | .ok server =>
        match URLString server.URL with
        | .error p => .error p
        | .ok address =>
          .ok ({ status := none
                 headers := [("X-Forwarded-Server", address)]
                 body := none
                 forwarded := [(i, r)] }, sel.lb)

/-! ## `initServers` and the start of `main` -/

/-- The registry under construction together with the `HealthCheck`
goroutines started so far (position of the server, interval). -/
structure Registry where
  servers : List Server
  probers : List (Nat × Nat)
  deriving DecidableEq

/-- The function `initServers`.  `parse` is `url.Parse`, `none` standing for
its error return (with a nil `*url.URL`); the error is discarded by `u, _ :=`. -/
def initServers (parse : String → Option URL) (serversURLs : List String)
    (healthCheckInterval : Nat) : Registry :=
  serversURLs.foldl
    (fun reg serverURL =>
      let u := parse serverURL
      let server : Server := { URL := u, HealthStatus := true }
      { servers := reg.servers ++ [server]
        probers := reg.probers ++ [(reg.servers.length, healthCheckInterval)] })
    { servers := [], probers := [] }

/-- The struct `Config`. -/
structure Config where
  ServersURLs : List String
  HealthCheckInterval : String
  Port : String
  deriving DecidableEq

/-- How the start of `main` (lines 17 to 31) ends. -/
inductive Startup where
  | configPanic (err : String)
  | durationError (err : String)
  | serving (registry : Registry) (lb : LoadBalancer)
  deriving DecidableEq

/-- The start of `main` up to the creation of the load balancer; `loaded` is
the result of `LoadConfig`, `parseDuration` is `time.ParseDuration`. -/
def mainStartup (loaded : Except String Config) (parseDuration : String → Except String Nat)
    (parse : String → Option URL) : Startup :=
  match loaded with
  | .error err => .configPanic err
  | .ok config =>
    match parseDuration config.HealthCheckInterval with
    | .error err => .durationError err
    | .ok healthCheckInterval =>
      .serving (initServers parse config.ServersURLs healthCheckInterval) ⟨0⟩

/-! ## Lemmas on the vocabulary -/

theorem cyclicFrom_zero (servers : List Server) (c : Nat) : cyclicFrom servers c 0 = [] := rfl

theorem cyclicFrom_length (servers : List Server) (c n : Nat) :
    (cyclicFrom servers c n).length = n := by
  simp [cyclicFrom]

theorem cyclicFrom_succ (servers : List Server) (c n : Nat) :
    cyclicFrom servers c (n + 1) = c % servers.length :: cyclicFrom servers (c + 1) n := by
  simp only [cyclicFrom, List.range_succ_eq_map, List.map_cons, List.map_map, Nat.add_zero]
  congr 1
  apply List.map_congr_left
  intro t _
  simp only [Function.comp, Nat.succ_eq_add_one]
  congr 1
  omega

theorem cyclicFrom_add (servers : List Server) (c m n : Nat) :
    cyclicFrom servers c (m + n) = cyclicFrom servers c m ++ cyclicFrom servers (c + m) n := by
  induction m generalizing c with
  | zero => simp [cyclicFrom_zero]
  | succ m ih =>
    rw [show m + 1 + n = (m + n) + 1 by omega, cyclicFrom_succ, cyclicFrom_succ, ih]
    rw [show c + 1 + m = c + (m + 1) by omega]
    rfl

theorem attemptsFrom_zero (servers : List Server) (c : Nat) : attemptsFrom servers c 0 = [] := rfl

theorem attemptsFrom_length (servers : List Server) (c n : Nat) :
    (attemptsFrom servers c n).length = n := by
  simp [attemptsFrom]

theorem attemptsFrom_succ (servers : List Server) (c n : Nat) :
    attemptsFrom servers c (n + 1) =
      ⟨(c : Int), ((c % servers.length : Nat) : Int)⟩ :: attemptsFrom servers (c + 1) n := by
  simp only [attemptsFrom, List.range_succ_eq_map, List.map_cons, List.map_map, Nat.add_zero]
  congr 1
  apply List.map_congr_left
  intro t _
  simp only [Function.comp, Nat.succ_eq_add_one]
  rw [show c + (t + 1) = c + 1 + t by omega]

theorem attemptsFrom_add (servers : List Server) (c m n : Nat) :
    attemptsFrom servers c (m + n) =
      attemptsFrom servers c m ++ attemptsFrom servers (c + m) n := by
  induction m generalizing c with
  | zero => simp [attemptsFrom_zero]
  | succ m ih =>
    rw [show m + 1 + n = (m + n) + 1 by omega, attemptsFrom_succ, attemptsFrom_succ, ih]
    rw [show c + 1 + m = c + (m + 1) by omega]
    rfl

/-- The candidate indices of the attempts from `c` are the cyclic positions from `c`. -/
theorem attemptsFrom_idx (servers : List Server) (c n : Nat) :
    (attemptsFrom servers c n).map Attempt.idx =
      (cyclicFrom servers c n).map (fun (i : Nat) => (i : Int)) := by
  simp [attemptsFrom, cyclicFrom]

/-- The cursor values of the attempts from `c` are `c, c+1, …`: one step each. -/
theorem attemptsFrom_cursor (servers : List Server) (c n : Nat) :
    (attemptsFrom servers c n).map Attempt.cursor =
      (List.range' c n).map (fun (v : Nat) => (v : Int)) := by
  simp only [attemptsFrom, List.map_map, List.range'_eq_map_range]
  rfl

/-- An attempt from cursor `c`: a cursor value in `[c, c + n)`, and the index
computed from it by the truncated remainder, which lies in `[0, N)`. -/
theorem mem_attemptsFrom {servers : List Server} (hN : 0 < servers.length) {c n : Nat}
    {a : Attempt} (ha : a ∈ attemptsFrom servers c n) :
    a.idx = Int.tmod a.cursor servers.length ∧ 0 ≤ a.idx ∧ a.idx < servers.length ∧
      (c : Int) ≤ a.cursor ∧ a.cursor < (c : Int) + n := by
  simp only [attemptsFrom, List.mem_map, List.mem_range] at ha
  obtain ⟨t, ht, rfl⟩ := ha
  refine ⟨Int.ofNat_tmod _ _, Int.ofNat_nonneg _, ?_, ?_, ?_⟩
  · show (((c + t) % servers.length : Nat) : Int) < (servers.length : Int)
    exact_mod_cast Nat.mod_lt _ hN
  · show (c : Int) ≤ ((c + t : Nat) : Int)
    exact_mod_cast Nat.le_add_right c t
  · show ((c + t : Nat) : Int) < (c : Int) + (n : Int)
    exact_mod_cast Nat.add_lt_add_left ht c

theorem mem_attemptsFrom_unhealthy {servers : List Server} {c j : Nat} {a : Attempt}
    (hbad : ∀ t, t < j → healthyAt servers ((c + t) % servers.length) = false)
    (ha : a ∈ attemptsFrom servers c j) : healthyAt servers a.idx.toNat = false := by
  simp only [attemptsFrom, List.mem_map, List.mem_range] at ha
  obtain ⟨t, ht, rfl⟩ := ha
  exact hbad t ht

theorem healthyAt_of_getElem? {servers : List Server} {i : Nat} {server : Server}
    (h : servers[i]? = some server) : healthyAt servers i = server.HealthStatus := by
  simp [healthyAt, h]

theorem healthyAt_lt {servers : List Server} {i : Nat} (h : healthyAt servers i = true) :
    i < servers.length := by
  by_contra hge
  have : servers[i]? = none := List.getElem?_eq_none (by omega)
  simp [healthyAt, this] at h

theorem healthyAt_iff_getElem? (servers : List Server) (i : Nat) :
    healthyAt servers i = true ↔
      ∃ server, servers[i]? = some server ∧ server.HealthStatus = true := by
  unfold healthyAt
  cases h : servers[i]? with
  | none => simp
  | some server => simp

theorem exists_healthyAt_iff (servers : List Server) :
    (∃ i, healthyAt servers i = true) ↔ ∃ s ∈ servers, s.HealthStatus = true := by
  constructor
  · rintro ⟨i, hi⟩
    obtain ⟨server, hget, hs⟩ := (healthyAt_iff_getElem? servers i).1 hi
    exact ⟨server, List.getElem?_mem hget, hs⟩
  · rintro ⟨s, hmem, hs⟩
    obtain ⟨i, hget⟩ := List.getElem?_of_mem hmem
    exact ⟨i, (healthyAt_iff_getElem? servers i).2 ⟨s, hget, hs⟩⟩

theorem healthyAt_of_all {servers : List Server}
    (hall : ∀ s ∈ servers, s.HealthStatus = true) {i : Nat} (hi : i < servers.length) :
    healthyAt servers i = true := by
  refine (healthyAt_iff_getElem? servers i).2 ⟨servers[i], List.getElem?_eq_getElem hi, ?_⟩
  exact hall _ (List.getElem_mem hi)

theorem healthyAt_of_none {servers : List Server}
    (hall : ∀ s ∈ servers, s.HealthStatus = false) (i : Nat) :
    healthyAt servers i = false := by
  cases hb : healthyAt servers i with
  | false => rfl
  | true =>
    obtain ⟨server, hget, hs⟩ := (healthyAt_iff_getElem? servers i).1 hb
    have := hall server (List.getElem?_mem hget)
    rw [hs] at this
    exact absurd this (by decide)

/-- Some healthy backend lies within one turn of any cursor. -/
theorem exists_healthy_offset (servers : List Server) (c : Nat)
    (h : ∃ i, healthyAt servers i = true) :
    ∃ j, j < servers.length ∧ healthyAt servers ((c + j) % servers.length) = true := by
  obtain ⟨i, hi⟩ := h
  have hi_lt : i < servers.length := healthyAt_lt hi
  refine ⟨(i + servers.length - c % servers.length) % servers.length, Nat.mod_lt _ (by omega), ?_⟩
  have hc : c % servers.length < servers.length := Nat.mod_lt _ (by omega)
  have : (c + (i + servers.length - c % servers.length) % servers.length) % servers.length = i := by
    rw [Nat.add_mod c, Nat.mod_mod,
      ← Nat.mod_mod c, ← Nat.add_mod (c % servers.length), Nat.mod_mod]
    rw [show c % servers.length + (i + servers.length - c % servers.length) = i + servers.length by omega]
    rw [Nat.add_mod_right, Nat.mod_eq_of_lt hi_lt]
  rw [this]; exact hi

/-- The first healthy offset from a cursor: it exists, is below `N`, and every
smaller offset is unhealthy. -/
theorem exists_first_healthy_offset (servers : List Server) (c : Nat)
    (h : ∃ i, healthyAt servers i = true) :
    ∃ j, j < servers.length ∧ healthyAt servers ((c + j) % servers.length) = true ∧
      ∀ t, t < j → healthyAt servers ((c + t) % servers.length) = false := by
  have hex : ∃ j, j < servers.length ∧ healthyAt servers ((c + j) % servers.length) = true :=
    exists_healthy_offset servers c h
  refine ⟨Nat.find hex, (Nat.find_spec hex).1, (Nat.find_spec hex).2, ?_⟩
  intro t ht
  have hmin := Nat.find_min hex ht
  have hlt : t < servers.length := lt_trans ht (Nat.find_spec hex).1
  cases hb : healthyAt servers ((c + t) % servers.length) with
  | false => rfl
  | true => exact absurd ⟨hlt, hb⟩ hmin

theorem find?_range'_first (p : Nat → Bool) (s n j : Nat) (hj : j < n) (hp : p (s + j) = true)
    (hbad : ∀ t, t < j → p (s + t) = false) :
    (List.range' s n).find? p = some (s + j) := by
  induction n generalizing s j with
  | zero => omega
  | succ n ih =>
    rw [List.range'_succ]
    cases j with
    | zero =>
      rw [List.find?_cons_of_pos _ (by simpa using hp)]
      rfl
    | succ j =>
      have h0 : p s = false := by simpa using hbad 0 (by omega)
      rw [List.find?_cons_of_neg _ (by simp [h0])]
      rw [ih (s + 1) j (by omega) (by rwa [show s + 1 + j = s + (j + 1) by omega])
        (fun t ht => by
          have := hbad (t + 1) (by omega)
          rwa [show s + (t + 1) = s + 1 + t by omega] at this)]
      congr 1
      omega

/-- The count of examined candidates when the first healthy offset is `j`. -/
theorem attemptCount_of_first (servers : List Server) (c j : Nat) (hj : j < servers.length)
    (hgood : healthyAt servers ((c + j) % servers.length) = true)
    (hbad : ∀ t, t < j → healthyAt servers ((c + t) % servers.length) = false) :
    attemptCount servers c = j + 1 := by
  have h := find?_range'_first (fun j => healthyAt servers ((c + j) % servers.length))
    0 servers.length j hj (by simpa using hgood) (fun t ht => by simpa using hbad t ht)
  unfold attemptCount firstHealthyOffset
  rw [List.range_eq_range', h]
  simp

/-- The count of examined candidates when no backend is healthy. -/
theorem attemptCount_of_none (servers : List Server) (c : Nat)
    (hall : ∀ i, healthyAt servers i = false) :
    attemptCount servers c = servers.length := by
  have h : (List.range servers.length).find?
      (fun j => healthyAt servers ((c + j) % servers.length)) = none := by
    rw [List.find?_eq_none]
    intro x _
    simp [hall]
  unfold attemptCount firstHealthyOffset
  rw [h]

/-- The two shapes of the count of examined candidates. -/
theorem attemptCount_cases (servers : List Server) (c : Nat) :
    ((∀ i, healthyAt servers i = false) ∧ attemptCount servers c = servers.length) ∨
    (∃ j, j < servers.length ∧ healthyAt servers ((c + j) % servers.length) = true ∧
      (∀ t, t < j → healthyAt servers ((c + t) % servers.length) = false) ∧
      attemptCount servers c = j + 1) := by
  by_cases h : ∃ i, healthyAt servers i = true
  · right
    obtain ⟨j, hj, hgood, hbad⟩ := exists_first_healthy_offset servers c h
    exact ⟨j, hj, hgood, hbad, attemptCount_of_first servers c j hj hgood hbad⟩
  · left
    have hall : ∀ i, healthyAt servers i = false := by
      intro i
      cases hb : healthyAt servers i with
      | false => rfl
      | true => exact absurd ⟨i, hb⟩ h
    exact ⟨hall, attemptCount_of_none servers c hall⟩

/-- A call examines at most `N` candidates. -/
theorem attemptCount_le_length (servers : List Server) (c : Nat) :
    attemptCount servers c ≤ servers.length := by
  rcases attemptCount_cases servers c with ⟨_, h⟩ | ⟨j, hj, _, _, h⟩
  · omega
  · omega

/-- A call on a non-empty pool examines at least one candidate. -/
theorem attemptCount_pos (servers : List Server) (c : Nat) (hN : 0 < servers.length) :
    1 ≤ attemptCount servers c := by
  rcases attemptCount_cases servers c with ⟨_, h⟩ | ⟨j, hj, _, _, h⟩
  · omega
  · omega

/-! ## Lemmas on the loop of `GetServer` -/

theorem wrapInt64_of_fits (x : Int) (hlo : -2 ^ 63 ≤ x) (hhi : x ≤ MaxInt64) :
    wrapInt64 x = x := by
  unfold MaxInt64 at hhi
  unfold wrapInt64
  omega

theorem wrapInt64_natCast (c : Nat) (hc : (c : Int) ≤ MaxInt64) : wrapInt64 (c : Int) = c :=
  wrapInt64_of_fits _ (by omega) hc

/-- One iteration of the loop from a non-negative cursor on a non-empty slice. -/
theorem GetServerLoop_succ (servers : List Server) (hN : 0 < servers.length)
    (left cur : Nat) (seen : List Attempt) :
    GetServerLoop servers (left + 1) (cur : Int) seen =
      if healthyAt servers (cur % servers.length) then
        .ok ⟨some (cur % servers.length), ⟨wrapInt64 ((cur : Int) + 1)⟩,
          seen ++ [⟨(cur : Int), ((cur % servers.length : Nat) : Int)⟩]⟩
      else
        GetServerLoop servers left (wrapInt64 ((cur : Int) + 1))
          (seen ++ [⟨(cur : Int), ((cur % servers.length : Nat) : Int)⟩]) := by
  have hlt : cur % servers.length < servers.length := Nat.mod_lt _ hN
  have hget : servers[cur % servers.length]? = some (servers[cur % servers.length]) :=
    List.getElem?_eq_getElem hlt
  have hne : (servers.length : Int) ≠ 0 := by omega
  have hrem : Int.tmod (cur : Int) (servers.length : Int) = ((cur % servers.length : Nat) : Int) :=
    (Int.ofNat_tmod cur servers.length).symm
  have hnonneg : ¬ (((cur % servers.length : Nat) : Int) < 0) := by omega
  rw [GetServerLoop]
  simp only [goRem, hne, if_false, hrem, goIndexInt, hnonneg, Int.toNat_ofNat, goIndex, hget,
    healthyAt]

/-- The loop skips a run of unhealthy candidates and reports none, as long as
every cursor value it reads is representable. -/
theorem GetServerLoop_none (servers : List Server) (hN : 0 < servers.length)
    (left cur : Nat) (seen : List Attempt)
    (hbad : ∀ t, t < left → healthyAt servers ((cur + t) % servers.length) = false)
    (hfit : (cur : Int) + left ≤ MaxInt64 + 1) :
    GetServerLoop servers left (wrapInt64 (cur : Int)) seen =
      .ok ⟨none, ⟨wrapInt64 ((cur : Int) + left)⟩, seen ++ attemptsFrom servers cur left⟩ := by
  induction left generalizing cur seen with
  | zero => simp [GetServerLoop, attemptsFrom_zero]
  | succ left ih =>
    have h0 : healthyAt servers (cur % servers.length) = false := by
      simpa using hbad 0 (by omega)
    have hcur : (cur : Int) ≤ MaxInt64 := by push_cast at hfit; omega
    rw [wrapInt64_natCast cur hcur, GetServerLoop_succ servers hN, h0]
    simp only [Bool.false_eq_true, if_false]
    have hcast : ((cur : Int) + 1) = ((cur + 1 : Nat) : Int) := by push_cast; rfl
    rw [hcast, ih (cur + 1) _ (fun t ht => by
      have := hbad (t + 1) (by omega)
      rwa [show cur + (t + 1) = cur + 1 + t by omega] at this) (by push_cast at hfit ⊢; omega)]
    have hend : ((cur + 1 : Nat) : Int) + (left : Int) = (cur : Int) + ((left + 1 : Nat) : Int) := by
      push_cast
      omega
    rw [attemptsFrom_succ, List.append_assoc, hend]
    simp only [List.singleton_append]

/-- The loop returns the first healthy candidate after a run of unhealthy
ones, as long as every cursor value it reads is representable. -/
theorem GetServerLoop_some (servers : List Server) (hN : 0 < servers.length)
    (left cur j : Nat) (seen : List Attempt) (hj : j < left)
    (hgood : healthyAt servers ((cur + j) % servers.length) = true)
    (hbad : ∀ t, t < j → healthyAt servers ((cur + t) % servers.length) = false)
    (hfit : (cur : Int) + j ≤ MaxInt64) :
    GetServerLoop servers left (cur : Int) seen =
      .ok ⟨some ((cur + j) % servers.length), ⟨wrapInt64 ((cur : Int) + j + 1)⟩,
        seen ++ attemptsFrom servers cur (j + 1)⟩ := by
  induction j generalizing left cur seen with
  | zero =>
    obtain ⟨left, rfl⟩ : ∃ l, left = l + 1 := ⟨left - 1, by omega⟩
    rw [GetServerLoop_succ servers hN]
    simp only [Nat.add_zero] at hgood
    simp [hgood, attemptsFrom_succ, attemptsFrom_zero]
  | succ j ih =>
    obtain ⟨left, rfl⟩ : ∃ l, left = l + 1 := ⟨left - 1, by omega⟩
    have h0 : healthyAt servers (cur % servers.length) = false := by
      simpa using hbad 0 (by omega)
    rw [GetServerLoop_succ servers hN, h0]
    simp only [Bool.false_eq_true, if_false]
    have hcast : ((cur : Int) + 1) = ((cur + 1 : Nat) : Int) := by push_cast; rfl
    have hnext : ((cur + 1 : Nat) : Int) ≤ MaxInt64 := by push_cast at hfit ⊢; omega
    rw [hcast, wrapInt64_natCast _ hnext]
    rw [ih left (cur + 1) _ (by omega)
      (by rwa [show cur + 1 + j = cur + (j + 1) by omega])
      (fun t ht => by
        have := hbad (t + 1) (by omega)
        rwa [show cur + (t + 1) = cur + 1 + t by omega] at this)
      (by push_cast at hfit ⊢; omega)]
    have hend : ((cur + 1 : Nat) : Int) + (j : Int) + 1 = (cur : Int) + ((j + 1 : Nat) : Int) + 1 := by
      push_cast
      omega
    rw [attemptsFrom_succ servers cur (j + 1), List.append_assoc, hend]
    simp only [List.singleton_append]
    rw [show cur + 1 + j = cur + (j + 1) by omega]

/-- Whatever the cursor, a backend the loop returns is healthy. -/
theorem GetServerLoop_healthy (servers : List Server) (left : Nat) (cur : Int)
    (seen : List Attempt) (sel : Selection) (i : Nat)
    (h : GetServerLoop servers left cur seen = .ok sel) (hi : sel.server = some i) :
    healthyAt servers i = true := by
  induction left generalizing cur seen with
  | zero =>
    simp only [GetServerLoop, Except.ok.injEq] at h
    rw [← h] at hi
    exact absurd hi (by simp)
  | succ left ih =>
    rw [GetServerLoop] at h
    cases hrem : goRem cur servers.length with
    | error p => simp [hrem] at h
    | ok idx =>
      simp only [hrem] at h
      cases hidx : goIndexInt servers idx with
      | error p => simp [hidx] at h
      | ok server =>
        simp only [hidx] at h
        by_cases hs : server.HealthStatus = true
        · simp only [hs, if_true, Except.ok.injEq] at h
          rw [← h] at hi
          simp only [Option.some.injEq] at hi
          rw [← hi]
          unfold goIndexInt at hidx
          split at hidx
          · exact absurd hidx (by simp)
          · unfold goIndex at hidx
            cases hget : servers[idx.toNat]? with
            | none => simp [hget] at hidx
            | some s =>
              simp only [hget, Except.ok.injEq] at hidx
              rw [healthyAt_of_getElem? hget, hidx, hs]
        · simp only [hs, if_false] at h
          exact ih _ _ h

/-- One call of `GetServer` from a non-negative cursor `c`: as long as the `t`
cursor values it reads are representable, it does what the loop on a counter
does, and leaves the cursor at the wrapped `c + t`. -/
theorem GetServer_cases (servers : List Server) (c : Nat)
    (hc : (c : Int) ≤ MaxInt64)
    (hfit : (c : Int) + attemptCount servers c ≤ MaxInt64 + 1) :
    ((∀ i, healthyAt servers i = false) ∧ attemptCount servers c = servers.length ∧
      GetServer servers ⟨(c : Int)⟩ =
        .ok ⟨none, ⟨wrapInt64 ((c : Int) + servers.length)⟩,
          attemptsFrom servers c servers.length⟩) ∨
    (∃ j, j < servers.length ∧ healthyAt servers ((c + j) % servers.length) = true ∧
      (∀ t, t < j → healthyAt servers ((c + t) % servers.length) = false) ∧
      attemptCount servers c = j + 1 ∧
      GetServer servers ⟨(c : Int)⟩ =
        .ok ⟨some ((c + j) % servers.length), ⟨wrapInt64 ((c : Int) + j + 1)⟩,
          attemptsFrom servers c (j + 1)⟩) := by
  rcases attemptCount_cases servers c with ⟨hall, hcount⟩ | ⟨j, hj, hgood, hbad, hcount⟩
  · left
    refine ⟨hall, hcount, ?_⟩
    rcases Nat.eq_zero_or_pos servers.length with h0 | hpos
    · simp [GetServer, h0, GetServerLoop, attemptsFrom_zero, wrapInt64_natCast c hc]
    · rw [hcount] at hfit
      have := GetServerLoop_none servers hpos servers.length c [] (fun t _ => hall _) hfit
      rw [wrapInt64_natCast c hc] at this
      simpa [GetServer] using this
  · right
    refine ⟨j, hj, hgood, hbad, hcount, ?_⟩
    rw [hcount] at hfit
    have := GetServerLoop_some servers (by omega) servers.length c j [] hj hgood hbad
      (by push_cast at hfit; omega)
    simpa [GetServer] using this

/-! ## One call and sequences of calls -/

/-- A call whose first candidate is healthy returns it after one attempt. -/
theorem GetServer_of_healthy (servers : List Server) (c : Nat)
    (h : healthyAt servers (c % servers.length) = true) (hc : (c : Int) ≤ MaxInt64) :
    GetServer servers ⟨(c : Int)⟩ =
      .ok ⟨some (c % servers.length), ⟨wrapInt64 ((c : Int) + 1)⟩,
        [⟨(c : Int), ((c % servers.length : Nat) : Int)⟩]⟩ := by
  have hN : 0 < servers.length := by have := healthyAt_lt h; omega
  have := GetServerLoop_some servers hN servers.length c 0 [] hN (by simpa using h)
    (fun t ht => absurd ht (Nat.not_lt_zero t)) (by simpa using hc)
  simpa [GetServer, attemptsFrom_succ, attemptsFrom_zero] using this

/-- A call on a pool without healthy backend examines all `N` and reports none. -/
theorem GetServer_of_all_unhealthy (servers : List Server) (c : Nat)
    (hall : ∀ i, healthyAt servers i = false)
    (hfit : (c : Int) + servers.length ≤ MaxInt64) :
    GetServer servers ⟨(c : Int)⟩ =
      .ok ⟨none, ⟨((c + servers.length : Nat) : Int)⟩, attemptsFrom servers c servers.length⟩ := by
  have hc : (c : Int) ≤ MaxInt64 := by omega
  have hcount := attemptCount_of_none servers c hall
  rcases GetServer_cases servers c hc (by rw [hcount]; omega) with ⟨_, _, h⟩ | ⟨j, _, hgood, _⟩
  · rw [h, wrapInt64_of_fits _ (by omega) hfit]
    push_cast
    rfl
  · rw [hall] at hgood
    exact absurd hgood (by decide)

theorem GetServerCalls_succ_ok (servers : List Server) (calls : Nat) (lb : LoadBalancer)
    (sel : Selection) (rest : List (Option Nat)) (lb2 : LoadBalancer)
    (h1 : GetServer servers lb = .ok sel)
    (h2 : GetServerCalls servers calls sel.lb = .ok (rest, lb2)) :
    GetServerCalls servers (calls + 1) lb = .ok (sel.server :: rest, lb2) := by
  rw [GetServerCalls, h1]
  simp only [h2]

/-- All backends healthy: the calls walk the slice in cyclic order, as long as
every cursor value they read is representable. -/
theorem GetServerCalls_of_all_healthy (servers : List Server) (hN : 0 < servers.length)
    (hall : ∀ s ∈ servers, s.HealthStatus = true) (M c : Nat)
    (hfit : (c : Int) + M ≤ MaxInt64 + 1) :
    GetServerCalls servers M ⟨wrapInt64 (c : Int)⟩ =
      .ok ((List.range M).map (fun j => some ((c + j) % servers.length)),
        ⟨wrapInt64 ((c : Int) + M)⟩) := by
  induction M generalizing c with
  | zero => simp [GetServerCalls]
  | succ M ih =>
    have hc : (c : Int) ≤ MaxInt64 := by push_cast at hfit; omega
    have h1 := GetServer_of_healthy servers c (healthyAt_of_all hall (Nat.mod_lt _ hN)) hc
    have hcast : ((c : Int) + 1) = ((c + 1 : Nat) : Int) := by push_cast; rfl
    rw [hcast] at h1
    have h2 := ih (c + 1) (by push_cast at hfit ⊢; omega)
    have hend : ((c + 1 : Nat) : Int) + (M : Int) = (c : Int) + ((M + 1 : Nat) : Int) := by
      push_cast
      omega
    rw [hend] at h2
    rw [wrapInt64_natCast c hc, GetServerCalls_succ_ok servers M ⟨(c : Int)⟩ _ _ _ h1 h2]
    simp only [List.range_succ_eq_map, List.map_cons, List.map_map, Nat.add_zero]
    congr 2
    congr 1
    apply List.map_congr_left
    intro t _
    simp only [Function.comp, Nat.succ_eq_add_one]
    congr 2
    omega

/-- All backends unhealthy: every call reports none and moves the cursor by
`N`, as long as the cursor stays representable. -/
theorem GetServerCalls_of_all_unhealthy (servers : List Server)
    (hall : ∀ s ∈ servers, s.HealthStatus = false) (M c : Nat)
    (hfit : (c : Int) + M * servers.length ≤ MaxInt64) :
    GetServerCalls servers M ⟨(c : Int)⟩ =
      .ok (List.replicate M none, ⟨((c + M * servers.length : Nat) : Int)⟩) := by
  induction M generalizing c with
  | zero => simp [GetServerCalls]
  | succ M ih =>
    have hmul : ((M + 1 : Nat) : Int) * servers.length = M * servers.length + servers.length := by
      push_cast
      ring
    have hnn : (0 : Int) ≤ (M : Int) * servers.length :=
      mul_nonneg (Int.ofNat_nonneg _) (Int.ofNat_nonneg _)
    have h1 := GetServer_of_all_unhealthy servers c (healthyAt_of_none hall)
      (by rw [hmul] at hfit; omega)
    have h2 := ih (c + servers.length) (by rw [hmul] at hfit; push_cast; omega)
    rw [GetServerCalls_succ_ok servers M ⟨(c : Int)⟩ _ _ _ h1 h2]
    simp only [List.replicate_succ]
    congr 4
    rw [Nat.succ_mul]
    omega

theorem firstHealthyFrom_congr {servers : List Server} {c d b : Nat}
    (hcd : c % servers.length = d % servers.length) (h : firstHealthyFrom servers c b) :
    firstHealthyFrom servers d b := by
  have key : ∀ t, (c + t) % servers.length = (d + t) % servers.length := by
    intro t
    rw [Nat.add_mod c, hcd, ← Nat.add_mod]
  obtain ⟨j, hj, hb, hgood, hbad⟩ := h
  refine ⟨j, hj, ?_, hgood, ?_⟩
  · rw [hb, key]
  · intro t ht
    rw [← key]
    exact hbad t ht

/-- Among the candidates up to the first healthy offset only the last passes the filter. -/
theorem filter_cyclicFrom_first (servers : List Server) (c j : Nat)
    (hgood : healthyAt servers ((c + j) % servers.length) = true)
    (hbad : ∀ t, t < j → healthyAt servers ((c + t) % servers.length) = false) :
    (cyclicFrom servers c (j + 1)).filter (healthyAt servers) = [(c + j) % servers.length] := by
  induction j generalizing c with
  | zero =>
    simp only [Nat.add_zero] at hgood
    simp [cyclicFrom_succ, cyclicFrom_zero, hgood]
  | succ j ih =>
    have h0 : healthyAt servers (c % servers.length) = false := by
      simpa using hbad 0 (by omega)
    rw [cyclicFrom_succ, List.filter_cons_of_neg (by simp [h0])]
    rw [ih (c + 1) (by rwa [show c + 1 + j = c + (j + 1) by omega])
      (fun t ht => by
        have := hbad (t + 1) (by omega)
        rwa [show c + (t + 1) = c + 1 + t by omega] at this)]
    rw [show c + 1 + j = c + (j + 1) by omega]

theorem consumed_zero (servers : List Server) (c : Nat) : consumed servers c 0 = 0 := by
  simp [consumed]

theorem consumed_succ (servers : List Server) (c M : Nat) :
    consumed servers c (M + 1) =
      attemptCount servers c + consumed servers (c + attemptCount servers c) M := by
  simp [consumed]

/-- With some healthy backend, `M` calls consume `L` cursor positions and
return exactly the healthy ones among them, in order, as long as every cursor
value they read is representable. -/
theorem GetServerCalls_filter (servers : List Server)
    (h : ∃ i, healthyAt servers i = true) (M c : Nat)
    (hfit : (c : Int) + consumed servers c M ≤ MaxInt64 + 1) :
    ∃ results,
      GetServerCalls servers M ⟨wrapInt64 (c : Int)⟩ =
        .ok (results.map some, ⟨wrapInt64 ((c : Int) + consumed servers c M)⟩) ∧
      results.length = M ∧
      M ≤ consumed servers c M ∧ consumed servers c M ≤ M * servers.length ∧
      results = (cyclicFrom servers c (consumed servers c M)).filter (healthyAt servers) ∧
      (∀ b, results.head? = some b → firstHealthyFrom servers c b) ∧
      List.Chain' (nextHealthy servers) results := by
  induction M generalizing c with
  | zero =>
    refine ⟨[], ?_, rfl, ?_, ?_, ?_, ?_, List.chain'_nil⟩
    · simp [GetServerCalls, consumed_zero]
    · simp
    · simp [consumed_zero]
    · simp [consumed_zero, cyclicFrom_zero]
    · simp
  | succ M ih =>
    obtain ⟨j, hj, hgood, hbad⟩ := exists_first_healthy_offset servers c h
    have hN : 0 < servers.length := by omega
    have hcount := attemptCount_of_first servers c j hj hgood hbad
    rw [consumed_succ, hcount] at hfit ⊢
    have hcj : (c : Int) + j ≤ MaxInt64 := by push_cast at hfit; omega
    have hc : (c : Int) ≤ MaxInt64 := by omega
    have h1 : GetServer servers ⟨(c : Int)⟩ =
        .ok ⟨some ((c + j) % servers.length), ⟨wrapInt64 (((c + (j + 1) : Nat) : Int))⟩,
          attemptsFrom servers c (j + 1)⟩ := by
      have := GetServerLoop_some servers hN servers.length c j [] hj hgood hbad hcj
      have hcast : (c : Int) + j + 1 = ((c + (j + 1) : Nat) : Int) := by push_cast; omega
      rw [hcast] at this
      simpa [GetServer] using this
    obtain ⟨results, hcalls, hlen, hML, hLM, hfilter, hhead, hchain⟩ :=
      ih (c + (j + 1)) (by push_cast at hfit ⊢; omega)
    have hend : ((c + (j + 1) : Nat) : Int) + (consumed servers (c + (j + 1)) M : Int) =
        (c : Int) + ((j + 1 + consumed servers (c + (j + 1)) M : Nat) : Int) := by
      push_cast
      omega
    rw [hend] at hcalls
    refine ⟨(c + j) % servers.length :: results, ?_, ?_, ?_, ?_, ?_, ?_, ?_⟩
    · rw [wrapInt64_natCast c hc, GetServerCalls_succ_ok servers M ⟨(c : Int)⟩ _ _ _ h1 hcalls]
      simp only [List.map_cons]
    · simp [hlen]
    · omega
    · rw [Nat.succ_mul]; omega
    · rw [cyclicFrom_add, List.filter_append, filter_cyclicFrom_first servers c j hgood hbad,
        ← hfilter]
      rfl
    · intro b hb
      simp only [List.head?_cons, Option.some.injEq] at hb
      exact ⟨j, hj, hb.symm, hb ▸ hgood, hbad⟩
    · rw [List.chain'_cons']
      refine ⟨?_, hchain⟩
      intro y hy
      have hy2 : results.head? = some y := by simpa using hy
      refine firstHealthyFrom_congr ?_ (hhead y hy2)
      rw [show c + (j + 1) = c + j + 1 by omega,
        Nat.add_mod ((c + j) % servers.length) 1, Nat.mod_mod, ← Nat.add_mod]

/-- One call of `GetServer` from a cursor `c ≥ 0` during which the cursor does
not overflow: it returns normally after `attemptCount` iterations that read
the cursor values `c, c+1, …` and leaves the cursor that many steps further. -/
theorem GetServer_total (servers : List Server) (c : Nat)
    (hfit : (c : Int) + attemptCount servers c ≤ MaxInt64) :
    ∃ sel, GetServer servers ⟨(c : Int)⟩ = .ok sel ∧
      sel.lb.CurrentIndex = ((c + attemptCount servers c : Nat) : Int) ∧
      sel.attempts = attemptsFrom servers c (attemptCount servers c) ∧
      (sel.server = none →
        attemptCount servers c = servers.length ∧ ∀ i, healthyAt servers i = false) ∧
      (∀ i, sel.server = some i →
        ∃ j, attemptCount servers c = j + 1 ∧ j < servers.length ∧
          i = (c + j) % servers.length ∧ healthyAt servers i = true ∧
          ∀ t, t < j → healthyAt servers ((c + t) % servers.length) = false) := by
  have hc : (c : Int) ≤ MaxInt64 := by omega
  rcases GetServer_cases servers c hc (by omega) with
    ⟨hall, hcount, h⟩ | ⟨j, hj, hgood, hbad, hcount, h⟩
  · refine ⟨_, h, ?_, ?_, ?_, ?_⟩
    · rw [hcount] at hfit
      show wrapInt64 ((c : Int) + servers.length) = ((c + attemptCount servers c : Nat) : Int)
      rw [wrapInt64_of_fits _ (by omega) hfit, hcount]
      push_cast
      rfl
    · rw [hcount]
    · intro _
      exact ⟨hcount, hall⟩
    · intro i hi
      simp at hi
  · refine ⟨_, h, ?_, ?_, ?_, ?_⟩
    · rw [hcount] at hfit
      show wrapInt64 ((c : Int) + j + 1) = ((c + attemptCount servers c : Nat) : Int)
      rw [wrapInt64_of_fits _ (by omega) (by push_cast at hfit; omega), hcount]
      push_cast
      omega
    · rw [hcount]
    · intro hnone
      simp at hnone
    · intro i hi
      simp only [Option.some.injEq] at hi
      exact ⟨j, hcount, hj, hi.symm, hi ▸ hgood, hbad⟩

/-! ## The prober, the handler and the registry -/

/-- The flag written by one probe is decided by the probe alone. -/
theorem HealthCheckUpdate_eq (server : Server) (probe : ProbeOutcome) :
    HealthCheckUpdate server probe = ⟨server.URL, decide (probe = .response 200)⟩ := by
  cases probe with
  | transportError => simp [HealthCheckUpdate]
  | response code =>
    by_cases hc : code = 200
    · subst hc
      simp [HealthCheckUpdate, StatusOK]
    · simp [HealthCheckUpdate, StatusOK, hc]

theorem initServers_foldl (parse : String → Option URL) (interval : Nat)
    (serversURLs : List String) (reg : Registry) :
    serversURLs.foldl
      (fun reg serverURL =>
        let u := parse serverURL
        let server : Server := { URL := u, HealthStatus := true }
        ({ servers := reg.servers ++ [server]
           probers := reg.probers ++ [(reg.servers.length, interval)] } : Registry))
      reg =
    { servers := reg.servers ++ serversURLs.map (fun s => ⟨parse s, true⟩)
      probers := reg.probers ++
        (List.range serversURLs.length).map (fun i => (reg.servers.length + i, interval)) } := by
  induction serversURLs generalizing reg with
  | nil => simp
  | cons serverURL rest ih =>
    rw [List.foldl_cons, ih]
    simp only [List.length_append, List.length_singleton, List.length_cons,
      List.range_succ_eq_map, List.map_cons, List.map_map, List.append_assoc,
      List.singleton_append, Nat.add_zero]
    congr 2
    congr 1
    apply List.map_congr_left
    intro t _
    simp only [Function.comp, Nat.succ_eq_add_one]
    congr 1
    simp only [List.length_nil]
    omega

/-- The function `initServers` has no failing path: it makes one backend per
input string, in order, with the address `parse` gave (nil when it failed), and
starts one prober per backend. -/
theorem initServers_eq (parse : String → Option URL) (serversURLs : List String)
    (interval : Nat) :
    initServers parse serversURLs interval =
      { servers := serversURLs.map (fun s => ⟨parse s, true⟩)
        probers := (List.range serversURLs.length).map (fun i => (i, interval)) } := by
  unfold initServers
  rw [initServers_foldl]
  simp

/-! ## The properties of the specification -/

/-- C1, failure of the claim as stated: on three healthy backends from the
cursor `2^63 - 1` the first call returns index 1 and wraps the cursor to
`-2^63`; the second call computes the index `-2^63 % 3 = -2` and panics, where
the claim has it return index `(c + 1) mod 3 = 2`. -/
theorem round_robin_overflow_counterexample :
    (∀ s ∈ ([⟨some "A", true⟩, ⟨some "B", true⟩, ⟨some "C", true⟩] : List Server),
      s.HealthStatus = true) ∧
    (0 : Int) ≤ MaxInt64 ∧
    GetServerCalls [⟨some "A", true⟩, ⟨some "B", true⟩, ⟨some "C", true⟩] 1 ⟨MaxInt64⟩ =
      .ok ([some 1], ⟨-2 ^ 63⟩) ∧
    GetServerCalls [⟨some "A", true⟩, ⟨some "B", true⟩, ⟨some "C", true⟩] 2 ⟨MaxInt64⟩ =
      .error .indexOutOfRange :=
  ⟨by simp, by decide, rfl, rfl⟩

/-- C1, amended: on a pool of `N ≥ 1` backends that are all healthy, from a
cursor `c` with `0 ≤ c ≤ 2^63 - 1`, and for `M ≥ 0` calls (also `M > N`) with
`c + M ≤ 2^63`, so that every cursor value `c, …, c + M - 1` the calls read is
representable, `M` sequential calls of `GetServer` return, for `j = 0..M-1`,
the backend at index `(c + j) mod N`; the cursor is left at the wrapped
`c + M`. -/
theorem GetServer_round_robin_all_healthy (servers : List Server) (c M : Nat)
    (hne : servers ≠ []) (hall : ∀ s ∈ servers, s.HealthStatus = true)
    (hc : (c : Int) ≤ MaxInt64) (hfit : (c : Int) + M ≤ MaxInt64 + 1) :
    GetServerCalls servers M ⟨(c : Int)⟩ =
      .ok ((List.range M).map (fun j => some ((c + j) % servers.length)),
        ⟨wrapInt64 ((c : Int) + M)⟩) := by
  have h := GetServerCalls_of_all_healthy servers (List.length_pos.2 hne) hall M c hfit
  rwa [wrapInt64_natCast c hc] at h

/-- C1 amended, on the pool `[A, B, C]`, all healthy, cursor 0: six calls
return `A, B, C, A, B, C`. -/
theorem GetServer_round_robin_all_healthy_witness :
    (([⟨some "A", true⟩, ⟨some "B", true⟩, ⟨some "C", true⟩] : List Server) ≠ [] ∧
      (∀ s ∈ ([⟨some "A", true⟩, ⟨some "B", true⟩, ⟨some "C", true⟩] : List Server),
        s.HealthStatus = true) ∧
      ((0 : Nat) : Int) ≤ MaxInt64 ∧ ((0 : Nat) : Int) + (6 : Nat) ≤ MaxInt64 + 1) ∧
    GetServerCalls [⟨some "A", true⟩, ⟨some "B", true⟩, ⟨some "C", true⟩] 6 ⟨((0 : Nat) : Int)⟩ =
      .ok ([some 0, some 1, some 2, some 0, some 1, some 2], ⟨6⟩) :=
  ⟨⟨by simp, by simp, by decide, by decide⟩,
    GetServer_round_robin_all_healthy
      [⟨some "A", true⟩, ⟨some "B", true⟩, ⟨some "C", true⟩] 0 6 (by simp) (by simp)
      (by decide) (by decide)⟩

/-- C2, failure of the claim as stated: on `[A healthy, B unhealthy, C healthy]`
from the cursor `2^63 - 1` the call examines `B` at index 1, wraps the cursor
to `-2^63`, computes the index `-2` and panics, where the claim has it return
`C`, the first healthy candidate, at offset 1. -/
theorem first_healthy_overflow_counterexample :
    (∃ s ∈ ([⟨some "A", true⟩, ⟨some "B", false⟩, ⟨some "C", true⟩] : List Server),
      s.HealthStatus = true) ∧
    (0 : Int) ≤ MaxInt64 ∧
    healthyAt [⟨some "A", true⟩, ⟨some "B", false⟩, ⟨some "C", true⟩]
      (((2 ^ 63 - 1) + 0) % 3) = false ∧
    healthyAt [⟨some "A", true⟩, ⟨some "B", false⟩, ⟨some "C", true⟩]
      (((2 ^ 63 - 1) + 1) % 3) = true ∧
    GetServer [⟨some "A", true⟩, ⟨some "B", false⟩, ⟨some "C", true⟩] ⟨MaxInt64⟩ =
      .error .indexOutOfRange :=
  ⟨⟨⟨some "A", true⟩, by simp, rfl⟩, by decide, by decide, by decide, rfl⟩

/-- C2, amended: when at least one backend is healthy, from a cursor `c ≥ 0`
with `c + j ≤ 2^63 - 1`, where `j` is the smallest offset whose candidate
`(c + j) mod N` is healthy (the call examines `t = j + 1` candidates, so this
is `c + t ≤ 2^63`: every cursor value it reads is representable), one call of
`GetServer` returns a backend, never none: the one at index `(c + j) mod N`.
That `j` is below `N`, the returned backend is healthy, and the call examined
`j + 1 ≤ N` positions. -/
theorem GetServer_first_healthy (servers : List Server) (c : Nat)
    (h : ∃ s ∈ servers, s.HealthStatus = true)
    (hfit : (c : Int) + attemptCount servers c ≤ MaxInt64 + 1) :
    ∃ j sel, j < servers.length ∧ attemptCount servers c = j + 1 ∧
      GetServer servers ⟨(c : Int)⟩ = .ok sel ∧
      sel.server = some ((c + j) % servers.length) ∧
      (∃ b, servers[(c + j) % servers.length]? = some b ∧ b.HealthStatus = true) ∧
      (∀ t, t < j → healthyAt servers ((c + t) % servers.length) = false) ∧
      sel.attempts.map Attempt.idx =
        (cyclicFrom servers c (j + 1)).map (fun (i : Nat) => (i : Int)) ∧
      sel.attempts.length ≤ servers.length := by
  have hex : ∃ i, healthyAt servers i = true := (exists_healthyAt_iff servers).2 h
  obtain ⟨i0, hi0⟩ := hex
  have hN : 0 < servers.length := by have := healthyAt_lt hi0; omega
  have hpos := attemptCount_pos servers c hN
  have hc : (c : Int) ≤ MaxInt64 := by omega
  rcases GetServer_cases servers c hc hfit with ⟨hall, _, _⟩ | ⟨j, hj, hgood, hbad, hcount, hsel⟩
  · rw [hall i0] at hi0
    exact absurd hi0 (by decide)
  · exact ⟨j, _, hj, hcount, hsel, rfl, (healthyAt_iff_getElem? servers _).1 hgood, hbad,
      attemptsFrom_idx servers c (j + 1), by simp [attemptsFrom_length]; omega⟩

/-- C2 amended, on the pool `[A unhealthy, B unhealthy, C healthy]` at cursor 4:
the call skips `B` and returns `C`. -/
theorem GetServer_first_healthy_witness :
    ((∃ s ∈ ([⟨some "A", false⟩, ⟨some "B", false⟩, ⟨some "C", true⟩] : List Server),
        s.HealthStatus = true) ∧
      ((4 : Nat) : Int) +
        attemptCount [⟨some "A", false⟩, ⟨some "B", false⟩, ⟨some "C", true⟩] 4 ≤ MaxInt64 + 1) ∧
    GetServer [⟨some "A", false⟩, ⟨some "B", false⟩, ⟨some "C", true⟩] ⟨((4 : Nat) : Int)⟩ =
      .ok ⟨some 2, ⟨6⟩, [⟨4, 1⟩, ⟨5, 2⟩]⟩ ∧
    ∃ j sel, j < 3 ∧
      attemptCount [⟨some "A", false⟩, ⟨some "B", false⟩, ⟨some "C", true⟩] 4 = j + 1 ∧
      GetServer [⟨some "A", false⟩, ⟨some "B", false⟩, ⟨some "C", true⟩] ⟨((4 : Nat) : Int)⟩ =
        .ok sel ∧
      sel.server = some ((4 + j) % 3) ∧
      (∃ b, ([⟨some "A", false⟩, ⟨some "B", false⟩, ⟨some "C", true⟩] : List Server)[(4 + j) % 3]?
          = some b ∧ b.HealthStatus = true) ∧
      (∀ t, t < j →
        healthyAt [⟨some "A", false⟩, ⟨some "B", false⟩, ⟨some "C", true⟩] ((4 + t) % 3) = false) ∧
      sel.attempts.map Attempt.idx =
        (cyclicFrom [⟨some "A", false⟩, ⟨some "B", false⟩, ⟨some "C", true⟩] 4 (j + 1)).map
          (fun (i : Nat) => (i : Int)) ∧
      sel.attempts.length ≤ 3 :=
  ⟨⟨⟨⟨some "C", true⟩, by simp, rfl⟩, by decide⟩, rfl,
    GetServer_first_healthy [⟨some "A", false⟩, ⟨some "B", false⟩, ⟨some "C", true⟩] 4
      ⟨⟨some "C", true⟩, by simp, rfl⟩ (by decide)⟩

/-- C3, failure of the claim as stated: on `[A healthy, B unhealthy, C healthy]`
(index 1 unhealthy, others healthy) from the cursor `2^63 - 1`, the first of
four calls already panics with index `-2` after the cursor wrapped, where the
claim has every call return a healthy backend. -/
theorem skips_unhealthy_overflow_counterexample :
    (∃ s, ([⟨some "A", true⟩, ⟨some "B", false⟩, ⟨some "C", true⟩] : List Server)[1]? = some s ∧
      s.HealthStatus = false) ∧
    (∃ i, i ≠ 1 ∧ healthyAt [⟨some "A", true⟩, ⟨some "B", false⟩, ⟨some "C", true⟩] i = true) ∧
    (0 : Int) ≤ MaxInt64 ∧
    GetServerCalls [⟨some "A", true⟩, ⟨some "B", false⟩, ⟨some "C", true⟩] 4 ⟨MaxInt64⟩ =
      .error .indexOutOfRange :=
  ⟨⟨⟨some "B", false⟩, rfl, rfl⟩, ⟨0, by decide, rfl⟩, by decide, rfl⟩

/-- C3, amended: with fixed health flags, the backend at index `k` unhealthy and
some other backend healthy, from a cursor `c` with `0 ≤ c ≤ 2^63 - 1` and for
`M` calls with `c + L ≤ 2^63`, where `L` is the number of candidates the `M`
calls examine in total (so that every cursor value `c, …, c + L - 1` they read
is representable), `M` sequential calls of `GetServer` all return a backend,
never the one at index `k`.  The results are the cyclic sequence
`c mod N, (c+1) mod N, …` of those `L` positions with the unhealthy indices
deleted: the first result is the first healthy position from `c`, and each
later result is the next healthy position strictly after the previous one. -/
theorem GetServer_skips_unhealthy (servers : List Server) (c M k : Nat)
    (hk : ∃ s, servers[k]? = some s ∧ s.HealthStatus = false)
    (hother : ∃ i, i ≠ k ∧ healthyAt servers i = true)
    (hc : (c : Int) ≤ MaxInt64)
    (hfit : (c : Int) + consumed servers c M ≤ MaxInt64 + 1) :
    ∃ results,
      GetServerCalls servers M ⟨(c : Int)⟩ =
        .ok (results.map some, ⟨wrapInt64 ((c : Int) + consumed servers c M)⟩) ∧
      results.length = M ∧
      k ∉ results ∧
      (∀ b ∈ results, healthyAt servers b = true) ∧
      results = (cyclicFrom servers c (consumed servers c M)).filter (healthyAt servers) ∧
      (∀ b, results.head? = some b → firstHealthyFrom servers c b) ∧
      List.Chain' (nextHealthy servers) results := by
  obtain ⟨i, _, hi⟩ := hother
  have hkbad : healthyAt servers k = false := by
    obtain ⟨s, hget, hs⟩ := hk
    rw [healthyAt_of_getElem? hget, hs]
  obtain ⟨results, hcalls, hlen, _, _, hfilter, hhead, hchain⟩ :=
    GetServerCalls_filter servers ⟨i, hi⟩ M c hfit
  rw [wrapInt64_natCast c hc] at hcalls
  have hhealthy : ∀ b ∈ results, healthyAt servers b = true := by
    intro b hb
    rw [hfilter] at hb
    exact (List.mem_filter.1 hb).2
  refine ⟨results, hcalls, hlen, ?_, hhealthy, hfilter, hhead, hchain⟩
  intro hmem
  have := hhealthy k hmem
  rw [hkbad] at this
  exact absurd this (by decide)

/-- C3 amended, on the pool `[A healthy, B unhealthy, C healthy]`, cursor 0:
four calls examine six candidates and return `A, C, A, C`. -/
theorem GetServer_skips_unhealthy_witness :
    ((∃ s, ([⟨some "A", true⟩, ⟨some "B", false⟩, ⟨some "C", true⟩] : List Server)[1]? = some s ∧
        s.HealthStatus = false) ∧
      (∃ i, i ≠ 1 ∧ healthyAt [⟨some "A", true⟩, ⟨some "B", false⟩, ⟨some "C", true⟩] i = true) ∧
      ((0 : Nat) : Int) ≤ MaxInt64 ∧
      ((0 : Nat) : Int) +
        consumed [⟨some "A", true⟩, ⟨some "B", false⟩, ⟨some "C", true⟩] 0 4 ≤ MaxInt64 + 1) ∧
    consumed [⟨some "A", true⟩, ⟨some "B", false⟩, ⟨some "C", true⟩] 0 4 = 6 ∧
    GetServerCalls [⟨some "A", true⟩, ⟨some "B", false⟩, ⟨some "C", true⟩] 4 ⟨((0 : Nat) : Int)⟩ =
      .ok ([some 0, some 2, some 0, some 2], ⟨6⟩) ∧
    ∃ results,
      GetServerCalls [⟨some "A", true⟩, ⟨some "B", false⟩, ⟨some "C", true⟩] 4
          ⟨((0 : Nat) : Int)⟩ =
        .ok (results.map some,
          ⟨wrapInt64 (((0 : Nat) : Int) +
            consumed [⟨some "A", true⟩, ⟨some "B", false⟩, ⟨some "C", true⟩] 0 4)⟩) ∧
      results.length = 4 ∧
      1 ∉ results ∧
      (∀ b ∈ results,
        healthyAt [⟨some "A", true⟩, ⟨some "B", false⟩, ⟨some "C", true⟩] b = true) ∧
      results = (cyclicFrom [⟨some "A", true⟩, ⟨some "B", false⟩, ⟨some "C", true⟩] 0
          (consumed [⟨some "A", true⟩, ⟨some "B", false⟩, ⟨some "C", true⟩] 0 4)).filter
        (healthyAt [⟨some "A", true⟩, ⟨some "B", false⟩, ⟨some "C", true⟩]) ∧
      (∀ b, results.head? = some b →
        firstHealthyFrom [⟨some "A", true⟩, ⟨some "B", false⟩, ⟨some "C", true⟩] 0 b) ∧
      List.Chain' (nextHealthy [⟨some "A", true⟩, ⟨some "B", false⟩, ⟨some "C", true⟩]) results :=
  ⟨⟨⟨⟨some "B", false⟩, rfl, rfl⟩, ⟨0, by decide, rfl⟩, by decide, by decide⟩, by decide, rfl,
    GetServer_skips_unhealthy [⟨some "A", true⟩, ⟨some "B", false⟩, ⟨some "C", true⟩] 0 4 1
      ⟨⟨some "B", false⟩, rfl, rfl⟩ ⟨0, by decide, rfl⟩ (by decide) (by decide)⟩

/-- C4, failure of the claim as stated: on `[A unhealthy, B unhealthy]` from
the cursor `2^63 - 2` the call reports none but leaves the cursor at `-2^63`,
not at `c + N = 2^63`; and on three unhealthy backends from `2^63 - 1` the
second iteration computes the index `-2` and the call panics instead of
reporting none. -/
theorem all_unhealthy_overflow_counterexample :
    (∀ s ∈ ([⟨some "A", false⟩, ⟨some "B", false⟩] : List Server), s.HealthStatus = false) ∧
    (0 : Int) ≤ 2 ^ 63 - 2 ∧ (2 ^ 63 - 2 : Int) ≤ MaxInt64 ∧
    GetServer [⟨some "A", false⟩, ⟨some "B", false⟩] ⟨2 ^ 63 - 2⟩ =
      .ok ⟨none, ⟨-2 ^ 63⟩, [⟨2 ^ 63 - 2, 0⟩, ⟨2 ^ 63 - 1, 1⟩]⟩ ∧
    (-2 ^ 63 : Int) ≠ (2 ^ 63 - 2) + 2 ∧
    GetServer [⟨some "A", false⟩, ⟨some "B", false⟩, ⟨some "C", false⟩] ⟨MaxInt64⟩ =
      .error .indexOutOfRange :=
  ⟨by simp, by decide, by decide, rfl, by decide, rfl⟩

/-- C4, amended: when every backend is unhealthy (pool of any length `N ≥ 0`),
from a cursor `c ≥ 0` with `c + N ≤ 2^63 - 1` a call of `GetServer` reports
none after examining all `N` positions and leaves the cursor at exactly
`c + N`; with `c + M * N ≤ 2^63 - 1`, `M` repeated calls report none every time
and leave the cursor at `c + M * N`.  On the empty pool, whatever the cursor,
the loop body never runs: no candidate index is computed (no division by
zero) and the cursor is unchanged. -/
theorem GetServer_none_when_all_unhealthy (servers : List Server) (c M : Nat)
    (hall : ∀ s ∈ servers, s.HealthStatus = false) :
    ((c : Int) + servers.length ≤ MaxInt64 →
      GetServer servers ⟨(c : Int)⟩ =
        .ok ⟨none, ⟨((c + servers.length : Nat) : Int)⟩,
          attemptsFrom servers c servers.length⟩) ∧
    ((c : Int) + M * servers.length ≤ MaxInt64 →
      GetServerCalls servers M ⟨(c : Int)⟩ =
        .ok (List.replicate M none, ⟨((c + M * servers.length : Nat) : Int)⟩)) ∧
    (∀ x : Int, GetServer [] ⟨x⟩ = .ok ⟨none, ⟨x⟩, []⟩) :=
  ⟨fun hfit => GetServer_of_all_unhealthy servers c (healthyAt_of_none hall) hfit,
    fun hfit => GetServerCalls_of_all_unhealthy servers hall M c hfit,
    fun _ => rfl⟩

/-- C4 amended, on the pool `[A unhealthy, B unhealthy]` at cursor 5, three
calls; and the empty pool at cursor 5. -/
theorem GetServer_none_when_all_unhealthy_witness :
    ((∀ s ∈ ([⟨some "A", false⟩, ⟨some "B", false⟩] : List Server), s.HealthStatus = false) ∧
      ((5 : Nat) : Int) + ([⟨some "A", false⟩, ⟨some "B", false⟩] : List Server).length
        ≤ MaxInt64 ∧
      ((5 : Nat) : Int) + (3 : Nat) * ([⟨some "A", false⟩, ⟨some "B", false⟩] : List Server).length
        ≤ MaxInt64) ∧
    GetServer [⟨some "A", false⟩, ⟨some "B", false⟩] ⟨((5 : Nat) : Int)⟩ =
      .ok ⟨none, ⟨7⟩, [⟨5, 1⟩, ⟨6, 0⟩]⟩ ∧
    GetServerCalls [⟨some "A", false⟩, ⟨some "B", false⟩] 3 ⟨((5 : Nat) : Int)⟩ =
      .ok ([none, none, none], ⟨11⟩) ∧
    GetServer [] ⟨5⟩ = .ok ⟨none, ⟨5⟩, []⟩ :=
  ⟨⟨by simp, by decide, by decide⟩,
    (GetServer_none_when_all_unhealthy [⟨some "A", false⟩, ⟨some "B", false⟩] 5 3
      (by simp)).1 (by decide),
    (GetServer_none_when_all_unhealthy [⟨some "A", false⟩, ⟨some "B", false⟩] 5 3
      (by simp)).2.1 (by decide),
    (GetServer_none_when_all_unhealthy [⟨some "A", false⟩, ⟨some "B", false⟩] 5 3
      (by simp)).2.2 5⟩

/-- C5, failure of the claim as stated: on `[A healthy, B healthy]` from the
cursor `2^63 - 1` the call examines one candidate and returns `B`, but the
increment wraps: the cursor is left at `-2^63`, which is neither `c + 1` nor
at least `c`. -/
theorem cursor_advance_overflow_counterexample :
    (0 : Int) ≤ MaxInt64 ∧
    GetServer [⟨some "A", true⟩, ⟨some "B", true⟩] ⟨MaxInt64⟩ =
      .ok ⟨some 1, ⟨-2 ^ 63⟩, [⟨MaxInt64, 1⟩]⟩ ∧
    (-2 ^ 63 : Int) ≠ MaxInt64 + 1 ∧
    (-2 ^ 63 : Int) < MaxInt64 :=
  ⟨by decide, rfl, by decide, by decide⟩

/-- C5, amended: from a cursor `c ≥ 0` with `c + t ≤ 2^63 - 1`, where `t` is the
number of candidates the call examines, one call of `GetServer` returns
normally and every iteration of its loop, whatever the health of its
candidate, advances the cursor by exactly one: the `t` attempts read the cursor
values `c, c+1, …, c+t-1`, each computing its candidate index from the value it
read, and the call leaves the cursor at `c + t`, never below `c`.  Here
`t ≤ N`, and `1 ≤ t` on a non-empty pool; `t = N` when none is returned; and
when the candidate at offset `j` is returned, the `j` candidates before it were
skipped as unhealthy, `t = j + 1` and the cursor is left at `c + j + 1`. -/
theorem GetServer_cursor_advance (servers : List Server) (c : Nat)
    (hfit : (c : Int) + attemptCount servers c ≤ MaxInt64) :
    ∃ sel, GetServer servers ⟨(c : Int)⟩ = .ok sel ∧
      sel.attempts.length = attemptCount servers c ∧
      sel.lb.CurrentIndex = (c : Int) + sel.attempts.length ∧
      sel.attempts.map Attempt.cursor =
        (List.range' c sel.attempts.length).map (fun (v : Nat) => (v : Int)) ∧
      (∀ a ∈ sel.attempts, a.idx = Int.tmod a.cursor servers.length) ∧
      (c : Int) ≤ sel.lb.CurrentIndex ∧
      sel.attempts.length ≤ servers.length ∧
      (servers ≠ [] → 1 ≤ sel.attempts.length) ∧
      (sel.server = none → sel.attempts.length = servers.length) ∧
      (∀ i, sel.server = some i →
        ∃ j, i = (c + j) % servers.length ∧
          sel.attempts = attemptsFrom servers c j ++ [⟨((c + j : Nat) : Int), (i : Int)⟩] ∧
          (∀ a ∈ attemptsFrom servers c j, healthyAt servers a.idx.toNat = false) ∧
          healthyAt servers i = true ∧
          sel.attempts.length = j + 1 ∧
          sel.lb.CurrentIndex = (c : Int) + j + 1) := by
  obtain ⟨sel, hsel, hcur, hvis, hnone, hsome⟩ := GetServer_total servers c hfit
  have hlen : sel.attempts.length = attemptCount servers c := by
    rw [hvis, attemptsFrom_length]
  have hcur2 : sel.lb.CurrentIndex = (c : Int) + sel.attempts.length := by
    rw [hcur, hlen]
    push_cast
    rfl
  refine ⟨sel, hsel, hlen, hcur2, ?_, ?_, ?_, ?_, ?_, ?_, ?_⟩
  · rw [hlen, hvis, attemptsFrom_cursor]
  · intro a ha
    rcases Nat.eq_zero_or_pos servers.length with h0 | hpos
    · have hcnt := attemptCount_le_length servers c
      rw [hvis, show attemptCount servers c = 0 by omega, attemptsFrom_zero] at ha
      exact absurd ha (List.not_mem_nil a)
    · rw [hvis] at ha
      exact (mem_attemptsFrom hpos ha).1
  · rw [hcur2]
    omega
  · rw [hlen]
    exact attemptCount_le_length servers c
  · intro hne
    rw [hlen]
    exact attemptCount_pos servers c (List.length_pos.2 hne)
  · intro h
    rw [hlen]
    exact (hnone h).1
  · intro i hi
    obtain ⟨j, hcount, hj, hij, hgood, hbad⟩ := hsome i hi
    refine ⟨j, hij, ?_, fun a ha => mem_attemptsFrom_unhealthy hbad ha, hgood, ?_, ?_⟩
    · rw [hvis, hcount, attemptsFrom_add, attemptsFrom_succ, attemptsFrom_zero, hij]
    · rw [hlen, hcount]
    · rw [hcur2, hlen, hcount]
      push_cast
      omega

/-- C5 amended, on the pool `[A unhealthy, B unhealthy, C healthy]` at cursor 3:
the call examines three candidates and leaves the cursor at 6. -/
theorem GetServer_cursor_advance_witness :
    ((3 : Nat) : Int) +
      attemptCount [⟨some "A", false⟩, ⟨some "B", false⟩, ⟨some "C", true⟩] 3 ≤ MaxInt64 ∧
    GetServer [⟨some "A", false⟩, ⟨some "B", false⟩, ⟨some "C", true⟩] ⟨((3 : Nat) : Int)⟩ =
      .ok ⟨some 2, ⟨6⟩, [⟨3, 0⟩, ⟨4, 1⟩, ⟨5, 2⟩]⟩ ∧
    ∃ sel, GetServer [⟨some "A", false⟩, ⟨some "B", false⟩, ⟨some "C", true⟩]
        ⟨((3 : Nat) : Int)⟩ = .ok sel ∧
      sel.lb.CurrentIndex = ((3 : Nat) : Int) + sel.attempts.length ∧
      1 ≤ sel.attempts.length := by
  obtain ⟨sel, hsel, _, hcur, _, _, _, _, hone, _, _⟩ :=
    GetServer_cursor_advance [⟨some "A", false⟩, ⟨some "B", false⟩, ⟨some "C", true⟩] 3
      (by decide)
  exact ⟨by decide, rfl, sel, hsel, hcur, hone (by simp)⟩

/-- C10, concrete failures of the claim as stated: from the largest `int`
(non-negative, representable) a call on the one-backend pool `[A healthy]`
leaves the cursor at `-2^63`, which is negative; and on
`[A unhealthy, B unhealthy, C healthy]` the second candidate index is
`-2^63 % 3 = -2`, outside `[0, 3)`, so indexing the pool panics. -/
theorem GetServerInt64_overflow_counterexample :
    (0 : Int) ≤ MaxInt64 ∧
    GetServer [⟨some "A", true⟩] ⟨MaxInt64⟩ =
      .ok ⟨some 0, ⟨-2 ^ 63⟩, [⟨MaxInt64, 0⟩]⟩ ∧
    (-2 ^ 63 : Int) < 0 ∧
    Int.tmod (wrapInt64 (MaxInt64 + 1)) 3 = -2 ∧
    GetServer [⟨some "A", false⟩, ⟨some "B", false⟩, ⟨some "C", true⟩] ⟨MaxInt64⟩ =
      .error .indexOutOfRange :=
  ⟨by decide, rfl, by decide, by decide, rfl⟩

/-- C10, amended: on a non-empty pool of length `N`, from a cursor `c ≥ 0` with
`c + t ≤ 2^63 - 1`, where `t ≤ N` is the number of candidates the call examines
(so that no increment of the call overflows), `GetServer` on the 64-bit `int`
returns normally, the cursor afterwards is still non-negative (and
representable), and every candidate index `CurrentIndex % N` computed during
the call lies in `[0, N)`. -/
theorem GetServerInt64_in_range (servers : List Server) (c : Int)
    (hne : servers ≠ []) (h0 : 0 ≤ c)
    (hfit : c + attemptCount servers c.toNat ≤ MaxInt64) :
    ∃ sel, GetServer servers ⟨c⟩ = .ok sel ∧
      0 ≤ sel.lb.CurrentIndex ∧ sel.lb.CurrentIndex ≤ MaxInt64 ∧
      sel.lb.CurrentIndex = c + sel.attempts.length ∧
      ∀ a ∈ sel.attempts,
        a.idx = Int.tmod a.cursor servers.length ∧ 0 ≤ a.idx ∧ a.idx < servers.length := by
  obtain ⟨n, rfl⟩ := Int.eq_ofNat_of_zero_le h0
  have hN : 0 < servers.length := List.length_pos.2 hne
  rw [Int.toNat_ofNat] at hfit
  obtain ⟨sel, hsel, hcur, hvis, _, _⟩ := GetServer_total servers n hfit
  have hlen : sel.attempts.length = attemptCount servers n := by
    rw [hvis, attemptsFrom_length]
  refine ⟨sel, hsel, ?_, ?_, ?_, ?_⟩
  · rw [hcur]
    exact Int.ofNat_nonneg _
  · rw [hcur]
    push_cast
    exact hfit
  · rw [hcur, hlen]
    push_cast
    rfl
  · intro a ha
    rw [hvis] at ha
    obtain ⟨hidx, hnonneg, hlt, _, _⟩ := mem_attemptsFrom hN ha
    exact ⟨hidx, hnonneg, hlt⟩

/-- C10 amended, on `[A unhealthy, B healthy]` at cursor `2^63 - 3`: the call
examines one candidate, `B` at index 1, and leaves the cursor at `2^63 - 2`. -/
theorem GetServerInt64_in_range_witness :
    (([⟨some "A", false⟩, ⟨some "B", true⟩] : List Server) ≠ [] ∧ (0 : Int) ≤ 2 ^ 63 - 3 ∧
      (2 ^ 63 - 3 : Int) +
        attemptCount [⟨some "A", false⟩, ⟨some "B", true⟩] (2 ^ 63 - 3 : Int).toNat ≤ MaxInt64) ∧
    ∃ sel, GetServer [⟨some "A", false⟩, ⟨some "B", true⟩] ⟨2 ^ 63 - 3⟩ = .ok sel ∧
      0 ≤ sel.lb.CurrentIndex ∧ sel.lb.CurrentIndex ≤ MaxInt64 ∧
      sel.lb.CurrentIndex = 2 ^ 63 - 3 + sel.attempts.length ∧
      ∀ a ∈ sel.attempts,
        a.idx = Int.tmod a.cursor ([⟨some "A", false⟩, ⟨some "B", true⟩] : List Server).length ∧
        0 ≤ a.idx ∧ a.idx < ([⟨some "A", false⟩, ⟨some "B", true⟩] : List Server).length :=
  ⟨⟨by simp, by decide, by decide⟩,
    GetServerInt64_in_range [⟨some "A", false⟩, ⟨some "B", true⟩] (2 ^ 63 - 3)
      (by simp) (by decide) (by decide)⟩

/-- C6: one iteration of the `HealthCheck` loop of the backend at position `i`
(which has an address) sets its flag to true if and only if the probe came
back without transport error and with status exactly 200.  The address is
kept, the backends at other positions are untouched, the result is the same
whatever the previous flag was, and for every backend and every probe outcome
the new flag is a function of that outcome alone. -/
theorem HealthCheck_sets_flag (head : String → ProbeOutcome) (servers : List Server)
    (i : Nat) (server : Server) (address : URL)
    (hget : servers[i]? = some server) (haddr : server.URL = some address) :
    ∃ updated,
      HealthCheckAt head servers i = .ok (servers.set i updated) ∧
      (servers.set i updated)[i]? = some updated ∧
      updated.URL = server.URL ∧
      (updated.HealthStatus = true ↔ head address = .response 200) ∧
      (∀ k, k ≠ i → (servers.set i updated)[k]? = servers[k]?) ∧
      (∀ prev, HealthCheck head { server with HealthStatus := prev } = .ok updated) ∧
      (∀ (b : Server) (probe : ProbeOutcome),
        (HealthCheckUpdate b probe).URL = b.URL ∧
        ((HealthCheckUpdate b probe).HealthStatus = true ↔ probe = .response 200)) := by
  have hi : i < servers.length := by
    by_contra hge
    rw [List.getElem?_eq_none (by omega)] at hget
    exact absurd hget (by simp)
  refine ⟨⟨server.URL, decide (head address = .response 200)⟩, ?_, ?_, rfl, by simp, ?_, ?_, ?_⟩
  · simp [HealthCheckAt, hget, HealthCheck, URLString, haddr, HealthCheckUpdate_eq]
  · simp [List.getElem?_set, hi]
  · intro k hk
    rw [List.getElem?_set_ne (Ne.symm hk)]
  · intro prev
    simp [HealthCheck, URLString, haddr, HealthCheckUpdate_eq]
  · intro b probe
    rw [HealthCheckUpdate_eq]
    simp

/-- C6, on the pool `[A healthy, B healthy]` with a network that answers 204
for `B`: the iteration for `B` turns its flag off and leaves `A` alone. -/
theorem HealthCheck_sets_flag_witness :
    (([⟨some "A", true⟩, ⟨some "B", true⟩] : List Server)[1]? = some ⟨some "B", true⟩ ∧
      (⟨some "B", true⟩ : Server).URL = some "B") ∧
    HealthCheckAt (fun _ => .response 204) [⟨some "A", true⟩, ⟨some "B", true⟩] 1 =
      .ok [⟨some "A", true⟩, ⟨some "B", false⟩] ∧
    ∃ updated,
      HealthCheckAt (fun _ => .response 204) [⟨some "A", true⟩, ⟨some "B", true⟩] 1 =
        .ok (([⟨some "A", true⟩, ⟨some "B", true⟩] : List Server).set 1 updated) ∧
      (updated.HealthStatus = true ↔
        (fun _ => ProbeOutcome.response 204 : String → ProbeOutcome) "B" = .response 200) := by
  obtain ⟨updated, h1, _, _, h4, _⟩ :=
    HealthCheck_sets_flag (fun _ => .response 204) [⟨some "A", true⟩, ⟨some "B", true⟩] 1
      ⟨some "B", true⟩ "B" rfl rfl
  exact ⟨⟨rfl, rfl⟩, rfl, updated, h1, h4⟩

/-- C7: the handler performs exactly one call of `GetServer` and acts on what
the call returns (the load balancer it leaves is the one that call leaves).
If the call returns none, the reply is HTTP 503 with a plain-text body and
the request is forwarded to nobody.  If it returns a backend, that backend is
in the pool and healthy, and, its address being there, the handler adds the
header `X-Forwarded-Server` with that address and hands the request to the
reverse proxy of that backend and of no other.  A panic of the call is the
handler's; the call does return whenever the cursor is non-negative and does
not overflow during the call. -/
theorem handler_dispatch (servers : List Server) (lb : LoadBalancer) (r : Request) :
    (∀ sel, GetServer servers lb = .ok sel →
      (sel.server = none →
        handler servers lb r =
          .ok (⟨some 503,
                [("Content-Type", "text/plain; charset=utf-8"),
                 ("X-Content-Type-Options", "nosniff")],
                some "No healthy server found\n", []⟩, sel.lb)) ∧
      (∀ i, sel.server = some i → ∃ b, servers[i]? = some b ∧ b.HealthStatus = true) ∧
      (∀ i b address, sel.server = some i → servers[i]? = some b → b.URL = some address →
        handler servers lb r =
          .ok (⟨none, [("X-Forwarded-Server", address)], none, [(i, r)]⟩, sel.lb))) ∧
    (∀ p, GetServer servers lb = .error p → handler servers lb r = .error p) ∧
    (0 ≤ lb.CurrentIndex →
      lb.CurrentIndex + attemptCount servers lb.CurrentIndex.toNat ≤ MaxInt64 →
      ∃ sel, GetServer servers lb = .ok sel) := by
  refine ⟨?_, ?_, ?_⟩
  · intro sel hsel
    refine ⟨?_, ?_, ?_⟩
    · intro hnone
      simp [handler, hsel, hnone, httpError, StatusServiceUnavailable]
    · intro i hi
      have hgood := GetServerLoop_healthy servers servers.length lb.CurrentIndex [] sel i hsel hi
      exact (healthyAt_iff_getElem? servers i).1 hgood
    · intro i b address hi hb haddr
      simp [handler, hsel, hi, goIndex, hb, URLString, haddr]
  · intro p hp
    simp [handler, hp]
  · intro h0 hfit
    obtain ⟨n, hn⟩ := Int.eq_ofNat_of_zero_le h0
    rw [hn, Int.toNat_ofNat] at hfit
    obtain ⟨sel, hsel, _⟩ := GetServer_total servers n hfit
    refine ⟨sel, ?_⟩
    have hlb : lb = ⟨(n : Int)⟩ := by
      cases lb
      simp only [LoadBalancer.mk.injEq]
      exact hn
    rw [hlb]
    exact hsel

/-- C7, on the pool `[A unhealthy]`: one request is answered 503 and forwarded
to nobody; on `[A unhealthy, B healthy]` it is forwarded to `B` alone. -/
theorem handler_dispatch_witness :
    handler [⟨some "A", false⟩] ⟨0⟩ ⟨"GET", "/"⟩ =
      .ok (⟨some 503,
            [("Content-Type", "text/plain; charset=utf-8"),
             ("X-Content-Type-Options", "nosniff")],
            some "No healthy server found\n", []⟩, ⟨1⟩) ∧
    handler [⟨some "A", false⟩, ⟨some "B", true⟩] ⟨0⟩ ⟨"GET", "/"⟩ =
      .ok (⟨none, [("X-Forwarded-Server", "B")], none, [(1, ⟨"GET", "/"⟩)]⟩, ⟨2⟩) :=
  ⟨((handler_dispatch [⟨some "A", false⟩] ⟨0⟩ ⟨"GET", "/"⟩).1
      ⟨none, ⟨1⟩, [⟨0, 0⟩]⟩ rfl).1 rfl,
    ((handler_dispatch [⟨some "A", false⟩, ⟨some "B", true⟩] ⟨0⟩ ⟨"GET", "/"⟩).1
      ⟨some 1, ⟨2⟩, [⟨0, 0⟩, ⟨1, 1⟩]⟩ rfl).2.2 1 ⟨some "B", true⟩ "B" rfl rfl rfl⟩

/-- C8, the code at an address list whose second entry `url.Parse` rejects:
`initServers` does not fail.  It returns a pool of two backends, the second
with a nil address and flagged healthy, and has started a prober for each; the
start of `main` goes on to serve with that pool; the first probe of the second
backend, and a request dispatched to it, then dereference the nil address. -/
theorem initServers_keeps_unparsed_address (parse : String → Option URL)
    (parseDuration : String → Except String Nat) (interval : Nat)
    (hbad : parse "://bad" = none) (hdur : parseDuration "10s" = .ok interval) :
    initServers parse ["http://localhost:8081", "://bad"] interval =
      ⟨[⟨parse "http://localhost:8081", true⟩, ⟨none, true⟩], [(0, interval), (1, interval)]⟩ ∧
    mainStartup (.ok ⟨["http://localhost:8081", "://bad"], "10s", ":8080"⟩) parseDuration parse =
      .serving ⟨[⟨parse "http://localhost:8081", true⟩, ⟨none, true⟩],
        [(0, interval), (1, interval)]⟩ ⟨0⟩ ∧
    (∀ head, HealthCheckAt head [⟨parse "http://localhost:8081", true⟩, ⟨none, true⟩] 1 =
      .error .nilDereference) ∧
    (∀ r, handler [⟨parse "http://localhost:8081", true⟩, ⟨none, true⟩] ⟨1⟩ r =
      .error .nilDereference) := by
  have h1 : initServers parse ["http://localhost:8081", "://bad"] interval =
      ⟨[⟨parse "http://localhost:8081", true⟩, ⟨none, true⟩],
        [(0, interval), (1, interval)]⟩ := by
    rw [initServers_eq]
    simp [hbad, List.range_succ_eq_map]
  refine ⟨h1, ?_, ?_, ?_⟩
  · simp only [mainStartup, hdur, h1]
  · intro head
    rfl
  · intro r
    rfl

/-- C8, with a parser that rejects exactly `://bad`. -/
theorem initServers_keeps_unparsed_address_witness :
    ((fun s => if s = "://bad" then none else some s : String → Option URL) "://bad" = none ∧
      (fun _ => .ok 10 : String → Except String Nat) "10s" = .ok 10) ∧
    initServers (fun s => if s = "://bad" then none else some s)
        ["http://localhost:8081", "://bad"] 10 =
      ⟨[⟨some "http://localhost:8081", true⟩, ⟨none, true⟩], [(0, 10), (1, 10)]⟩ :=
  ⟨⟨rfl, rfl⟩,
    (initServers_keeps_unparsed_address (fun s => if s = "://bad" then none else some s)
      (fun _ => .ok 10) 10 rfl rfl).1⟩

end LB
